import Mathlib

/-!
Shallow embedding of src/main.py (image-optim): per-image transform pipeline,
per-directory processing, and three-tier JSON catalog aggregation.

Modelling conventions:
- A filename is its stem plus its dotted extension, mirroring pathlib's
  `Path.stem` / `Path.suffix` accessors.
- PIL images are modelled as mode + size + flattened pixel sequence, the view
  `getdata` / `Image.new` / `putdata` expose.  The external codec primitives
  (resize, autocontrast, mode conversion) are modelled at their documented
  interface: they produce an image of the documented mode and size; resampled
  or remapped pixel content beyond that interface is not constrained by any
  claim and is given a simple concrete realisation.
- `multiprocessing.Pool.map` is modelled by `List.map`, per its contract:
  one result per input, results in submission order.
- A filesystem snapshot is the root directory's files plus the list of all
  proper descendant directories in pathlib's recursive-glob preorder (the
  order the source's `rglob` traversals observe), each directory carrying the
  files it directly contains in scandir order.
- External optimizer subprocesses (jpegoptim / optipng / pngquant) rewrite
  bytes of already-written files without changing catalog structure; the
  claims are stated under the no-external-tool-side-effects reading, so their
  invocation is not modelled.
-/

/-- Python's `str.lower`, character-wise (coincides with it on the ASCII
strings this program compares; stated character-wise so that proofs can
evaluate it). -/
def lowerStr (s : String) : String := ⟨s.data.map Char.toLower⟩

/-- Python's `str.upper`, character-wise (coincides with it on the ASCII
strings this program compares; stated character-wise so that proofs can
evaluate it). -/
def upperStr (s : String) : String := ⟨s.data.map Char.toUpper⟩

/-- A file name as pathlib sees it: `stem` (name without extension) and
`suffix` (the dotted extension, possibly empty). -/
structure FileName where
  stem : String
  suffix : String
deriving DecidableEq, Repr

/-- IMAGE_EXTENSIONS from src/main.py line 20. -/
def IMAGE_EXTENSIONS : List String :=
  [".jpg", ".jpeg", ".png", ".bmp", ".gif", ".tiff"]

/-- `is_image_file` (src/main.py lines 22-23): suffix test, case-insensitive. -/
def is_image_file (name : FileName) : Bool :=
  IMAGE_EXTENSIONS.contains (lowerStr name.suffix)

/-- A pixel value (flattened band data as `getdata` yields it). -/
abbrev Pixel := Nat

/-- A decoded PIL image: color mode, dimensions, flattened pixel data. -/
structure PILImage where
  mode : String
  width : Nat
  height : Nat
  data : List Pixel
deriving DecidableEq, Repr

/-- Model of `PIL.Image.new(mode, size)` (external codec interface): a fresh
image of the given mode and size, pixels zero-initialised. -/
def imageNew (mode : String) (width height : Nat) : PILImage :=
  ⟨mode, width, height, List.replicate (width * height) 0⟩

/-- Model of `Image.putdata(data)` (external codec interface): copies the
sequence into the image starting at the upper-left corner, continuing until
either the image or the sequence ends (shorter sequences leave the remaining
pixels unchanged, longer ones are truncated). -/
def putdata (im : PILImage) (d : List Pixel) : PILImage :=
  { im with data :=
      d.take (im.width * im.height)
        ++ im.data.drop (min d.length (im.width * im.height)) }

/-- `strip_exif` (src/main.py lines 25-32): rebuild the image from its raw
pixel data only — `data = list(image.getdata())`, `Image.new(mode, size)`,
`putdata(data)` — discarding every auxiliary metadata block. -/
def strip_exif (image : PILImage) : PILImage :=
  let data := image.data
  let image_no_exif := imageNew image.mode image.width image.height
  putdata image_no_exif data

/-- PIL resampling filters (`Image.NEAREST`, `Image.LANCZOS`, ...). -/
inductive Resample where
  | nearest
  | box
  | bilinear
  | hamming
  | bicubic
  | lanczos
deriving DecidableEq, Repr

/-- The `Image.LANCZOS` constant used at src/main.py line 64. -/
def Image_LANCZOS : Resample := .lanczos

/-- Model of `Image.resize(size, filter)` (external codec interface): an image
of exactly the requested size in the same mode; resampled pixel content is
outside every claim and realised as the zero image of that size. -/
def resize (im : PILImage) (w h : Nat) (filt : Resample) : PILImage :=
  match filt with
  | _ => ⟨im.mode, w, h, List.replicate (w * h) 0⟩

/-- Model of `ImageOps.autocontrast` (external codec interface): linearly
stretches pixel intensities to the full range; mode and size preserved. -/
def autocontrast (im : PILImage) : PILImage :=
  let lo := im.data.foldr min 255
  let hi := im.data.foldr max 0
  { im with data :=
      if lo < hi then im.data.map (fun p => (p - lo) * 255 / (hi - lo))
      else im.data }

/-- Model of `Image.convert(mode)` (external codec interface): changes the
color mode; size preserved; per-band pixel conversion is outside every claim
and the flattened data is carried through. -/
def convert (im : PILImage) (mode : String) : PILImage :=
  { im with mode := mode }

/-- Model of `image.convert('P', palette=Image.ADAPTIVE)` (external codec
interface): adaptive-palette conversion to palette mode; size preserved. -/
def convert_adaptive_P (im : PILImage) : PILImage :=
  { im with mode := "P" }

/-- The keyword arguments passed to `image.save`.  `none` / `false` mean the
keyword is absent. -/
structure SaveKwargs where
  quality : Option Nat
  optimize : Bool
  progressive : Bool
  compress_level : Option Nat
  method : Option Nat
deriving DecidableEq, Repr

/-- The empty `save_kwargs` dictionary. -/
def emptyKwargs : SaveKwargs := ⟨none, false, false, none, none⟩

/-- An in-memory encoding of an image (the `BytesIO` buffer written by
`image.save(buffer, format, **save_kwargs)`): the format, the image as saved
(after any autocontrast / palette conversion), and the keywords used. -/
structure EncodedImage where
  format : String
  image : PILImage
  kwargs : SaveKwargs
deriving DecidableEq, Repr

/-- `optimize_image` (src/main.py lines 34-56): format-specific save keywords;
for PNG an autocontrast pass then adaptive-palette conversion when not already
palette mode; for any other format no keywords at all. -/
def optimize_image (image : PILImage) (image_format : String)
    (quality : Nat) (progressive : Bool) : EncodedImage :=
  if upperStr image_format = "JPEG" ∨ upperStr image_format = "JPG" then
    { format := image_format, image := image,
      kwargs := { quality := some quality, optimize := true,
                  progressive := progressive, compress_level := none,
                  method := none } }
  else if upperStr image_format = "PNG" then
    let image := autocontrast image
    let image := if image.mode ≠ "P" then convert_adaptive_P image else image
    { format := image_format, image := image,
      kwargs := { quality := none, optimize := true, progressive := false,
                  compress_level := some 9, method := none } }
  else
    { format := image_format, image := image, kwargs := emptyKwargs }

/-- The minified file written by `create_minified_image`: its path, format,
saved image, the resampling filter passed to `resize`, and save keywords. -/
structure MinSaved where
  path : FileName
  format : String
  image : PILImage
  resample : Resample
  kwargs : SaveKwargs
deriving DecidableEq, Repr

/-- `create_minified_image` (src/main.py lines 58-104): halve each dimension
with integer floor division, resize with `Image.LANCZOS`, optionally re-target
to WebP, then apply the format-specific save keywords (PNG additionally gets
autocontrast plus adaptive-palette conversion) and save to `min_path`.
The external optimizer step is outside the model (see the file header). -/
def create_minified_image (image : PILImage) (min_path : FileName)
    (image_format : String) (quality : Nat) (convert_to_webp : Bool) :
    MinSaved :=
  let min_image := resize image (image.width / 2) (image.height / 2)
    Image_LANCZOS
  let min_path := if convert_to_webp then
      { min_path with suffix := ".webp" } else min_path
  let image_format := if convert_to_webp then "WEBP" else image_format
  if upperStr image_format = "JPEG" ∨ upperStr image_format = "JPG" then
    { path := min_path, format := image_format, image := min_image,
      resample := Image_LANCZOS,
      kwargs := { quality := some quality, optimize := true,
                  progressive := true, compress_level := none,
                  method := none } }
  else if upperStr image_format = "PNG" then
    let min_image := autocontrast min_image
    let min_image := if min_image.mode ≠ "P" then
        convert_adaptive_P min_image else min_image
    { path := min_path, format := image_format, image := min_image,
      resample := Image_LANCZOS,
      kwargs := { quality := none, optimize := true, progressive := false,
                  compress_level := some 9, method := none } }
  else if upperStr image_format = "WEBP" then
    { path := min_path, format := image_format, image := min_image,
      resample := Image_LANCZOS,
      kwargs := { quality := some quality, optimize := false,
                  progressive := false, compress_level := none,
                  method := some 6 } }
  else
    { path := min_path, format := image_format, image := min_image,
      resample := Image_LANCZOS, kwargs := emptyKwargs }

/-- The `meta` object of a photo entry (src/main.py lines 153-157). -/
structure PhotoMeta where
  description : String
  keywords : List String
  category : List String
deriving DecidableEq, Repr

/-- The `img` object of a photo entry (src/main.py lines 158-161). -/
structure PhotoImg where
  url : String
  min : String
deriving DecidableEq, Repr

/-- The `series` object of a photo entry (src/main.py lines 162-165). -/
structure PhotoSeries where
  seriesName : String
  frontPage : Bool
deriving DecidableEq, Repr

/-- One photo entry as serialised into photos.json (src/main.py 151-166). -/
structure PhotoEntry where
  title : String
  meta : PhotoMeta
  img : PhotoImg
  series : PhotoSeries
deriving DecidableEq, Repr

/-- `PurePath.as_posix` of a relative path given by its components: the
components joined with forward slashes. -/
def joinPosix (parts : List String) : String :=
  String.intercalate "/" parts

/-- The content of one file in the tree.  `image` is a decodable raster file
carrying its on-disk format and decoded image, `corrupt` is a file that
`Image.open` fails on (unreadable or undecodable bytes), `catalog` is a JSON
document of the shape written by this program, and `other` is any
other file content. -/
inductive FileContent where
  | image (format : String) (im : PILImage)
  | corrupt
  | catalog (photos : List PhotoEntry)
  | other
deriving DecidableEq, Repr

/-- A directory entry: a file name together with its content. -/
structure FsFile where
  name : FileName
  content : FileContent
deriving DecidableEq, Repr

/-- Everything one successful `process_image` call produces: the returned
photo entry, plus its two filesystem writes — the optimized re-encoding
written over the original file (`orig` / `optimized`) and the minified
variant written next to it (`min_name` / `min_content`).  `resample` records
the resampling filter `create_minified_image` passed to `resize`. -/
structure ImageOutcome where
  entry : PhotoEntry
  orig : FileName
  optimized : FileContent
  min_name : FileName
  min_content : FileContent
  resample : Resample
deriving DecidableEq, Repr

/-- `process_image` (src/main.py lines 109-172): open the image (any failure
anywhere in the body is caught at line 170 and returned as `none`), normalise
the color mode for JPEG/PNG, strip EXIF, optimize and overwrite the original
in place, create the `<stem>-min<suffix>` minified file, and return the photo
entry with forward-slash paths relative to the root.  `dirPath` is the list
of directory names from the root down to the file's directory ([] for a file
directly in the root) and `rootName` is the root directory's own name.
The color-mode compatibility conversion of src/main.py lines 120-124 is
factored out first. -/
def ensure_compatible_mode (image_format : String) (im : PILImage) :
    PILImage :=
  if (upperStr image_format = "JPEG" ∨ upperStr image_format = "JPG")
      ∧ ¬ (im.mode = "RGB" ∨ im.mode = "L") then
    convert im "RGB"
  else if upperStr image_format = "PNG"
      ∧ ¬ (im.mode = "RGB" ∨ im.mode = "RGBA" ∨ im.mode = "P"
            ∨ im.mode = "L") then
    convert im "RGBA"
  else im

/-- `process_image` continued: the body of src/main.py lines 109-172. -/
def process_image (rootName : String) (dirPath : List String)
    (f : FsFile) : Option ImageOutcome :=
  match f.content with
  | .image image_format im =>
      let im := ensure_compatible_mode image_format im
      let im_no_exif := strip_exif im
      let optimized_buffer := optimize_image im_no_exif image_format 85 true
      let min_filename : FileName := ⟨f.name.stem ++ "-min", f.name.suffix⟩
      let convert_to_webp := false
      let minSaved :=
        create_minified_image im_no_exif min_filename image_format 75
          convert_to_webp
      let relative_url := joinPosix (dirPath ++ [f.name.stem ++ f.name.suffix])
      let relative_min :=
        joinPosix (dirPath ++ [minSaved.path.stem ++ minSaved.path.suffix])
      let parentName := (dirPath.getLast?).getD rootName
      some { entry :=
               { title := f.name.stem,
                 meta := { description := "", keywords := [""],
                           category := [""] },
                 img := { url := relative_url, min := relative_min },
                 series := { seriesName := parentName, frontPage := false } },
             orig := f.name,
             optimized := .image image_format optimized_buffer.image,
             min_name := minSaved.path,
             min_content := .image minSaved.format minSaved.image,
             resample := minSaved.resample }
  | _ => none

/-- Writing a file into a directory listing: replace the content of the file
of that name if one exists, otherwise append the new file at the end. -/
def upsertFile : List FsFile → FileName → FileContent → List FsFile
  | [], n, c => [⟨n, c⟩]
  | g :: gs, n, c =>
      if g.name = n then ⟨n, c⟩ :: gs else g :: upsertFile gs n c

/-- Look a file's content up by name in a directory listing. -/
def lookupFile : List FsFile → FileName → Option FileContent
  | [], _ => none
  | g :: gs, n => if g.name = n then some g.content else lookupFile gs n

/-- The two writes a successful `process_image` performs inside its directory:
overwrite the original, then save the minified file. -/
def applyOutcome (files : List FsFile) (o : ImageOutcome) : List FsFile :=
  upsertFile (upsertFile files o.orig o.optimized) o.min_name o.min_content

/-- The image files directly contained in a directory, in scandir order
(src/main.py lines 179-182). -/
def imagesIn (files : List FsFile) : List FsFile :=
  files.filter (fun f => is_image_file f.name)

/-- `pool.map(process_image, ...)` (src/main.py line 191): one result per
submitted image, in submission order, per `multiprocessing.Pool.map`'s
contract. -/
def pool_map_results (rootName : String) (dirPath : List String)
    (files : List FsFile) : List (Option ImageOutcome) :=
  (imagesIn files).map (process_image rootName dirPath)

/-- The file name `photos.json`. -/
def photosJsonName : FileName := ⟨"photos", ".json"⟩

/-- The file name `allPhotos.json`. -/
def allPhotosJsonName : FileName := ⟨"allPhotos", ".json"⟩

/-- The file name `master.json` (described by the specification; the source
never creates it). -/
def masterJsonName : FileName := ⟨"master", ".json"⟩

/-- `process_directory` (src/main.py lines 174-218) acting on one directory's
listing: enumerate the image files, dispatch them through the pool (each
success overwriting its original and writing its minified sibling), filter
out failures, and write `photos.json` if and only if at least one image
succeeded.  Returns the updated listing and the `photos_data` list the
function returns for aggregation.  The per-image writes performed during
`pool.map` are collected first. -/
def directory_written_files (rootName : String) (dirPath : List String)
    (files : List FsFile) : List FsFile :=
  (pool_map_results rootName dirPath files).foldl
    (fun acc r => match r with
      | some o => applyOutcome acc o
      | none => acc) files

/-- The `photos_data` list of `process_directory` (src/main.py line 194):
the entries of the successful results, failures filtered out, in
submission order. -/
def directory_photos_data (rootName : String) (dirPath : List String)
    (files : List FsFile) : List PhotoEntry :=
  (pool_map_results rootName dirPath files).reduceOption.map
    ImageOutcome.entry

def process_directory (rootName : String) (dirPath : List String)
    (files : List FsFile) : List FsFile × List PhotoEntry :=
  let image_files := imagesIn files
  if image_files.isEmpty then (files, [])
  else
    let written := directory_written_files rootName dirPath files
    let photos_data := directory_photos_data rootName dirPath files
    if photos_data.isEmpty then (written, [])
    else (upsertFile written photosJsonName (.catalog photos_data),
          photos_data)

/-- One directory strictly below the root: its path (the list of directory
names from the root down, nonempty) and the files it directly contains in
scandir order. -/
structure Dir where
  path : List String
  files : List FsFile
deriving DecidableEq, Repr

/-- A snapshot of the tree under the root: the root directory's name and
direct files, and every proper descendant directory listed in pathlib's
recursive-glob preorder (the order `rglob` enumerates directories: a
directory before its descendants, siblings in scandir order). -/
structure Fs where
  rootName : String
  rootFiles : List FsFile
  subs : List Dir
deriving DecidableEq, Repr

/-- Model validity of a snapshot: descendant paths are nonempty and pairwise
distinct, and every descendant's parent directory is the root or is itself
listed. -/
def Fs.WF (fs : Fs) : Prop :=
  (∀ d ∈ fs.subs, d.path ≠ []) ∧ (fs.subs.map Dir.path).Nodup ∧
    ∀ d ∈ fs.subs, d.path.dropLast = [] ∨
      d.path.dropLast ∈ fs.subs.map Dir.path

instance (fs : Fs) : Decidable fs.WF := by
  unfold Fs.WF; infer_instance

/-- The files of the directory at `p` ([] is the root). -/
def getFiles (fs : Fs) (p : List String) : Option (List FsFile) :=
  match p with
  | [] => some fs.rootFiles
  | _ => (fs.subs.find? (fun d => d.path = p)).map Dir.files

/-- Replace the files of the directory at `p` ([] is the root). -/
def setFiles (fs : Fs) (p : List String) (files : List FsFile) : Fs :=
  match p with
  | [] => { fs with rootFiles := files }
  | _ =>
      let newSubs := fs.subs.map fun d =>
        if d.path = p then { d with files := files } else d
      { fs with subs := newSubs }

/-- Every directory at or below the root paired with its files, in the
recursive-glob preorder: the root first, then the descendants. -/
def allDirsInOrder (fs : Fs) : List (List String × List FsFile) :=
  ([], fs.rootFiles) :: fs.subs.map (fun d => (d.path, d.files))

/-- The directory children of the directory at `p`, in scandir order (the
sub-list of descendants whose path extends `p` by one component). -/
def dirChildren (fs : Fs) (p : List String) : List Dir :=
  fs.subs.filter
    (fun d => d.path.length = p.length + 1 ∧ d.path.dropLast = p)

/-- The directories produced by `root_photos.rglob('*')` filtered to
directories (src/main.py line 264): for each directory in the recursive-glob
preorder, its directory children in scandir order. -/
def rglobStarDirs (fs : Fs) : List (List String) :=
  ((allDirsInOrder fs).map
    (fun pd => (dirChildren fs pd.1).map Dir.path)).flatten

/-- `all_directories` (src/main.py lines 263-272): the directories from
`rglob('*')`, then the root itself appended iff it directly contains at
least one supported image file. -/
def all_directories (fs : Fs) : List (List String) :=
  rglobStarDirs fs ++
    (if fs.rootFiles.any (fun f => is_image_file f.name) then [[]] else [])

/-- Process the directory at path `p` of the snapshot (one iteration of the
loop at src/main.py lines 284-286). -/
def processDirStep (rootName : String) (fs : Fs) (p : List String) : Fs :=
  match getFiles fs p with
  | some files => setFiles fs p (process_directory rootName p files).1
  | none => fs

/-- The directory-processing phase of `process_folder`: each directory of
`all_directories`, in order, processed against the evolving snapshot. -/
def run_directories (rootName : String) (fs : Fs) : Fs :=
  (all_directories fs).foldl (processDirStep rootName) fs

/-- The content of each `photos.json` file `root_photos.rglob('photos.json')`
finds, in traversal order (src/main.py line 226). -/
def found_photos_files (fs : Fs) : List FileContent :=
  (allDirsInOrder fs).filterMap (fun pd => lookupFile pd.2 photosJsonName)

/-- `json.load` followed by `.get("photos", [])` on one discovered catalog
file: a catalog document yields its photos list; any other content makes the
read raise, which the outer `except` of `aggregate_all_photos` turns into
abandoning the whole aggregation. -/
def readCatalog : FileContent → Option (List PhotoEntry)
  | .catalog l => some l
  | _ => none

/-- `aggregate_all_photos` (src/main.py lines 220-250): read every
`photos.json` under the root in traversal order, concatenate their `photos`
arrays, and write `allPhotos.json` at the root — skipping the write when the
concatenation is empty, and writing nothing at all when some catalog file
fails to read (the outer `except`). -/
def aggregate_all_photos (fs : Fs) : Fs :=
  match (found_photos_files fs).mapM readCatalog with
  | none => fs
  | some ls =>
      let all_photos := ls.flatten
      if all_photos.isEmpty then fs
      else setFiles fs []
        (upsertFile fs.rootFiles allPhotosJsonName (.catalog all_photos))

/-- `process_folder` (src/main.py lines 252-293): build `all_directories`,
return early when it is empty, otherwise process every directory and then
aggregate all photos into `allPhotos.json`. -/
def process_folder (rootName : String) (fs : Fs) : Fs :=
  let dirs := all_directories fs
  if dirs.isEmpty then fs
  else aggregate_all_photos (dirs.foldl (processDirStep rootName) fs)

/-- The order directory catalogs are created in: the order directories are
processed, i.e. `all_directories` (src/main.py lines 263-272, 284-286). -/
def creationOrder (fs : Fs) : List (List String) :=
  all_directories fs

/-- The order aggregation reads directory catalogs in: the recursive-glob
preorder restricted to directories that contain a `photos.json` file
(src/main.py line 226). -/
def aggregationOrder (fs : Fs) : List (List String) :=
  (allDirsInOrder fs).filterMap
    (fun pd => if (lookupFile pd.2 photosJsonName).isSome
      then some pd.1 else none)

/-! Helper lemmas about the codec primitives. -/

theorem convert_width (im : PILImage) (m : String) :
    (convert im m).width = im.width := rfl

theorem convert_height (im : PILImage) (m : String) :
    (convert im m).height = im.height := rfl

theorem strip_exif_width (im : PILImage) :
    (strip_exif im).width = im.width := rfl

theorem strip_exif_height (im : PILImage) :
    (strip_exif im).height = im.height := rfl

theorem autocontrast_width (im : PILImage) :
    (autocontrast im).width = im.width := rfl

theorem autocontrast_height (im : PILImage) :
    (autocontrast im).height = im.height := rfl

theorem convert_adaptive_P_width (im : PILImage) :
    (convert_adaptive_P im).width = im.width := rfl

theorem convert_adaptive_P_height (im : PILImage) :
    (convert_adaptive_P im).height = im.height := rfl

theorem resize_width (im : PILImage) (w h : Nat) (r : Resample) :
    (resize im w h r).width = w := rfl

theorem resize_height (im : PILImage) (w h : Nat) (r : Resample) :
    (resize im w h r).height = h := rfl

/-- With WebP conversion off, the minified save has exactly half the input's
width and height (floor division) and records the `Image.LANCZOS` filter,
whatever the format branch taken. -/
theorem create_minified_image_spec (image : PILImage) (p : FileName)
    (fmt : String) (q : Nat) :
    (create_minified_image image p fmt q false).image.width
        = image.width / 2 ∧
    (create_minified_image image p fmt q false).image.height
        = image.height / 2 ∧
    (create_minified_image image p fmt q false).resample = Image_LANCZOS := by
  unfold create_minified_image
  simp only [Bool.false_eq_true, if_false]
  split
  · exact ⟨rfl, rfl, rfl⟩
  · split
    · split <;> exact ⟨rfl, rfl, rfl⟩
    · split
      · exact ⟨rfl, rfl, rfl⟩
      · exact ⟨rfl, rfl, rfl⟩

theorem ensure_compatible_mode_width (fmt : String) (im : PILImage) :
    (ensure_compatible_mode fmt im).width = im.width := by
  unfold ensure_compatible_mode
  split
  · rfl
  · split <;> rfl

theorem ensure_compatible_mode_height (fmt : String) (im : PILImage) :
    (ensure_compatible_mode fmt im).height = im.height := by
  unfold ensure_compatible_mode
  split
  · rfl
  · split <;> rfl

/-- For a format that is neither JPEG-family nor PNG, no compatibility
conversion applies. -/
theorem ensure_compatible_mode_other (fmt : String) (im : PILImage)
    (h1 : upperStr fmt ≠ "JPEG") (h2 : upperStr fmt ≠ "JPG")
    (h3 : upperStr fmt ≠ "PNG") :
    ensure_compatible_mode fmt im = im := by
  unfold ensure_compatible_mode
  rw [if_neg, if_neg]
  · rintro ⟨h, -⟩
    exact h3 h
  · rintro ⟨h | h, -⟩
    · exact h1 h
    · exact h2 h

theorem lookupFile_upsertFile_self (files : List FsFile) (n : FileName)
    (c : FileContent) :
    lookupFile (upsertFile files n c) n = some c := by
  induction files with
  | nil => simp [upsertFile, lookupFile]
  | cons g gs ih =>
    by_cases hg : g.name = n
    · simp [upsertFile, hg, lookupFile]
    · simp [upsertFile, hg, lookupFile, ih]

theorem lookupFile_upsertFile_other (files : List FsFile) (n m : FileName)
    (c : FileContent) (h : m ≠ n) :
    lookupFile (upsertFile files n c) m = lookupFile files m := by
  induction files with
  | nil => simp [upsertFile, lookupFile, Ne.symm h]
  | cons g gs ih =>
    by_cases hg : g.name = n
    · have hgm : g.name ≠ m := by rw [hg]; exact Ne.symm h
      simp [upsertFile, hg, lookupFile, Ne.symm h, hgm]
    · simp [upsertFile, hg, lookupFile, ih]

/-- C9: metadata stripping reconstructs the image from raw pixel data only,
preserving mode and dimensions and altering no pixel value: the stripped
image has the same mode, the same size, and identical pixel data. -/
theorem strip_exif_pixel_identical (image : PILImage)
    (h : image.data.length = image.width * image.height) :
    (strip_exif image).mode = image.mode ∧
    (strip_exif image).width = image.width ∧
    (strip_exif image).height = image.height ∧
    (strip_exif image).data = image.data := by
  refine ⟨rfl, rfl, rfl, ?_⟩
  show image.data.take (image.width * image.height)
      ++ (List.replicate (image.width * image.height) (0 : Pixel)).drop
          (min image.data.length (image.width * image.height))
      = image.data
  rw [← h, min_self, List.take_length]
  simp

/-- Witness for the metadata-stripping theorem at a concrete image. -/
theorem strip_exif_pixel_identical_witness :
    (⟨"RGB", 2, 2, [7, 9, 8, 6]⟩ : PILImage).data.length = 2 * 2 ∧
    ((strip_exif ⟨"RGB", 2, 2, [7, 9, 8, 6]⟩).mode = "RGB" ∧
     (strip_exif ⟨"RGB", 2, 2, [7, 9, 8, 6]⟩).width = 2 ∧
     (strip_exif ⟨"RGB", 2, 2, [7, 9, 8, 6]⟩).height = 2 ∧
     (strip_exif ⟨"RGB", 2, 2, [7, 9, 8, 6]⟩).data = [7, 9, 8, 6]) :=
  ⟨by decide, strip_exif_pixel_identical ⟨"RGB", 2, 2, [7, 9, 8, 6]⟩
    (by decide)⟩

/-- C3: every successfully processed image of width w and height h yields a
minified variant of width floor(w/2) and height floor(h/2), produced with
the Lanczos resampling filter, which is not nearest-neighbor. -/
theorem minified_variant_half_lanczos (rootName : String)
    (dirPath : List String) (f : FsFile) (fmt : String) (im : PILImage)
    (h : f.content = .image fmt im) :
    ∃ o, process_image rootName dirPath f = some o ∧
      ∃ mfmt mim, o.min_content = .image mfmt mim ∧
        mim.width = im.width / 2 ∧ mim.height = im.height / 2 ∧
        o.resample = Image_LANCZOS ∧ Image_LANCZOS ≠ Resample.nearest := by
  rcases f with ⟨name, content⟩
  dsimp only at h
  subst h
  refine ⟨_, rfl, _, _, rfl, ?_, ?_, ?_, by decide⟩
  · rw [(create_minified_image_spec _ _ _ _).1, strip_exif_width,
      ensure_compatible_mode_width]
  · rw [(create_minified_image_spec _ _ _ _).2.1, strip_exif_height,
      ensure_compatible_mode_height]
  · exact (create_minified_image_spec _ _ _ _).2.2

/-- Witness for the minified-variant theorem at a concrete 5x3 JPEG. -/
theorem minified_variant_half_lanczos_witness :
    (⟨⟨"pic", ".jpg"⟩, .image "JPEG" ⟨"RGB", 5, 3, []⟩⟩ : FsFile).content
        = .image "JPEG" ⟨"RGB", 5, 3, []⟩ ∧
    (∃ o, process_image "photos" ["A"]
          ⟨⟨"pic", ".jpg"⟩, .image "JPEG" ⟨"RGB", 5, 3, []⟩⟩ = some o ∧
      ∃ mfmt mim, o.min_content = .image mfmt mim ∧
        mim.width = (⟨"RGB", 5, 3, []⟩ : PILImage).width / 2 ∧
        mim.height = (⟨"RGB", 5, 3, []⟩ : PILImage).height / 2 ∧
        o.resample = Image_LANCZOS ∧ Image_LANCZOS ≠ Resample.nearest) :=
  ⟨rfl, minified_variant_half_lanczos "photos" ["A"] _ "JPEG"
    ⟨"RGB", 5, 3, []⟩ rfl⟩

theorem create_minified_image_path (image : PILImage) (p : FileName)
    (fmt : String) (q : Nat) :
    (create_minified_image image p fmt q false).path = p := by
  unfold create_minified_image
  simp only [Bool.false_eq_true, if_false]
  split
  · rfl
  · split
    · split <;> rfl
    · split
      · rfl
      · rfl

theorem name_ne_min_name (n : FileName) :
    n ≠ (⟨n.stem ++ "-min", n.suffix⟩ : FileName) := by
  intro h
  have h2 := congrArg (fun m : FileName => m.stem.length) h
  have h3 : ("-min" : String).length = 4 := by decide
  simp only [String.length_append, h3] at h2
  omega

/-- C10: for a supported format that is neither JPEG nor PNG (BMP, GIF,
TIFF), the primary optimization applies no format-specific encode
parameters (empty save keywords), yet the original file is still
overwritten in place with the plain re-encoding of the stripped image. -/
theorem other_formats_plain_overwrite (rootName : String)
    (dirPath : List String) (files : List FsFile) (f : FsFile) (fmt : String)
    (im : PILImage) (hc : f.content = .image fmt im)
    (h1 : upperStr fmt ≠ "JPEG") (h2 : upperStr fmt ≠ "JPG")
    (h3 : upperStr fmt ≠ "PNG") :
    ∃ o, process_image rootName dirPath f = some o ∧
      (optimize_image (strip_exif im) fmt 85 true).kwargs = emptyKwargs ∧
      o.orig = f.name ∧ o.optimized = .image fmt (strip_exif im) ∧
      lookupFile (applyOutcome files o) f.name
        = some (.image fmt (strip_exif im)) := by
  rcases f with ⟨name, content⟩
  dsimp only at hc
  subst hc
  have hopt : optimize_image (strip_exif im) fmt 85 true
      = { format := fmt, image := strip_exif im, kwargs := emptyKwargs } := by
    unfold optimize_image
    rw [if_neg, if_neg h3]
    rintro (h | h)
    · exact h1 h
    · exact h2 h
  have hens : ensure_compatible_mode fmt im = im :=
    ensure_compatible_mode_other fmt im h1 h2 h3
  refine ⟨_, rfl, ?_, rfl, ?_, ?_⟩
  · rw [hopt]
  · show FileContent.image fmt
        (optimize_image (strip_exif (ensure_compatible_mode fmt im))
          fmt 85 true).image = _
    rw [hens, hopt]
  · show lookupFile (applyOutcome files _) name = _
    unfold applyOutcome
    dsimp only
    rw [create_minified_image_path]
    rw [lookupFile_upsertFile_other _ _ _ _ (name_ne_min_name name),
      lookupFile_upsertFile_self]
    rw [hens, hopt]

/-- Witness for the non-JPEG/PNG overwrite theorem at a concrete BMP file. -/
theorem other_formats_plain_overwrite_witness :
    ((⟨⟨"pic", ".bmp"⟩, .image "BMP" ⟨"RGB", 4, 2, []⟩⟩ : FsFile).content
        = .image "BMP" ⟨"RGB", 4, 2, []⟩ ∧
      upperStr "BMP" ≠ "JPEG" ∧ upperStr "BMP" ≠ "JPG" ∧
      upperStr "BMP" ≠ "PNG") ∧
    (∃ o, process_image "photos" []
          ⟨⟨"pic", ".bmp"⟩, .image "BMP" ⟨"RGB", 4, 2, []⟩⟩ = some o ∧
      (optimize_image (strip_exif ⟨"RGB", 4, 2, []⟩) "BMP" 85 true).kwargs
          = emptyKwargs ∧
      o.orig = (⟨⟨"pic", ".bmp"⟩,
          .image "BMP" ⟨"RGB", 4, 2, []⟩⟩ : FsFile).name ∧
      o.optimized = .image "BMP" (strip_exif ⟨"RGB", 4, 2, []⟩) ∧
      lookupFile (applyOutcome [] o)
          (⟨⟨"pic", ".bmp"⟩, .image "BMP" ⟨"RGB", 4, 2, []⟩⟩ : FsFile).name
        = some (.image "BMP" (strip_exif ⟨"RGB", 4, 2, []⟩))) :=
  ⟨⟨rfl, by decide, by decide, by decide⟩,
    other_formats_plain_overwrite "photos" [] [] _ "BMP" ⟨"RGB", 4, 2, []⟩
      rfl (by decide) (by decide) (by decide)⟩

/-- C5: processing a directory yields exactly one processing result per
image enumerated in it — no silent drops — and the result sequence is in
submission order: the i-th result is the result of the i-th image. -/
theorem one_result_per_image_in_order (rootName : String)
    (dirPath : List String) (files : List FsFile) :
    (pool_map_results rootName dirPath files).length
        = (imagesIn files).length ∧
    ∀ i (h1 : i < (pool_map_results rootName dirPath files).length)
      (h2 : i < (imagesIn files).length),
      (pool_map_results rootName dirPath files).get ⟨i, h1⟩
        = process_image rootName dirPath ((imagesIn files).get ⟨i, h2⟩) := by
  constructor
  · simp [pool_map_results]
  · intro i h1 h2
    simp [pool_map_results, List.get_eq_getElem, List.getElem_map]

/-- A sample directory listing: one good JPEG, one corrupt PNG, one
non-image file. -/
def sampleDirFiles : List FsFile :=
  [⟨⟨"a", ".jpg"⟩, .image "JPEG" ⟨"RGB", 2, 2, [0, 0, 0, 0]⟩⟩,
   ⟨⟨"b", ".png"⟩, .corrupt⟩,
   ⟨⟨"notes", ".txt"⟩, .other⟩]

/-- Witness for the one-result-per-image theorem on `sampleDirFiles`. -/
theorem one_result_per_image_in_order_witness :
    ((pool_map_results "photos" [] sampleDirFiles).length
        = (imagesIn sampleDirFiles).length) ∧
    (pool_map_results "photos" [] sampleDirFiles).get ⟨1, by decide⟩
      = process_image "photos" [] ((imagesIn sampleDirFiles).get
          ⟨1, by decide⟩) :=
  ⟨(one_result_per_image_in_order "photos" [] sampleDirFiles).1,
   (one_result_per_image_in_order "photos" [] sampleDirFiles).2 1
     (by decide) (by decide)⟩

theorem entry_mem_photos_data (rootName : String) (dirPath : List String)
    (files : List FsFile) (g : FsFile) (o : ImageOutcome)
    (hg : g ∈ imagesIn files)
    (ho : process_image rootName dirPath g = some o) :
    o.entry ∈ directory_photos_data rootName dirPath files := by
  refine List.mem_map_of_mem _ ?_
  rw [List.reduceOption_mem_iff, ← ho]
  exact List.mem_map_of_mem _ hg

/-- When at least one image of the directory succeeds, `process_directory`
returns the `photos_data` list and writes it to `photos.json`. -/
theorem process_directory_of_success (rootName : String)
    (dirPath : List String) (files : List FsFile) (g : FsFile)
    (o : ImageOutcome) (hg : g ∈ imagesIn files)
    (ho : process_image rootName dirPath g = some o) :
    (process_directory rootName dirPath files).2
        = directory_photos_data rootName dirPath files ∧
    lookupFile (process_directory rootName dirPath files).1 photosJsonName
        = some (.catalog (directory_photos_data rootName dirPath files)) := by
  have hmem := entry_mem_photos_data rootName dirPath files g o hg ho
  have h1 : (imagesIn files).isEmpty = false := by
    cases hi : imagesIn files with
    | nil => rw [hi] at hg; exact absurd hg (List.not_mem_nil g)
    | cons a l => rfl
  have h2 : (directory_photos_data rootName dirPath files).isEmpty
      = false := by
    cases hp : directory_photos_data rootName dirPath files with
    | nil => rw [hp] at hmem; exact absurd hmem (List.not_mem_nil _)
    | cons a l => rfl
  unfold process_directory
  simp only [h1, h2, Bool.false_eq_true, if_false]
  exact ⟨by trivial, lookupFile_upsertFile_self _ _ _⟩

/-- C4: an error while processing an image is caught at the image-processing
boundary and becomes a failure for that image only (a corrupt file always
yields `none`), while sibling images in the same directory still succeed
and appear in that directory's photos.json. -/
theorem failure_isolated_to_image (rootName : String)
    (dirPath : List String) (files : List FsFile) (g : FsFile)
    (o : ImageOutcome) (hg : g ∈ imagesIn files)
    (ho : process_image rootName dirPath g = some o) :
    (∀ f : FsFile, f.content = .corrupt
      → process_image rootName dirPath f = none) ∧
    o.entry ∈ (process_directory rootName dirPath files).2 ∧
    ∃ l, lookupFile (process_directory rootName dirPath files).1
        photosJsonName = some (.catalog l) ∧ o.entry ∈ l := by
  obtain ⟨hsnd, hcat⟩ :=
    process_directory_of_success rootName dirPath files g o hg ho
  have hmem := entry_mem_photos_data rootName dirPath files g o hg ho
  refine ⟨?_, ?_, ?_⟩
  · intro f hf
    rcases f with ⟨name, content⟩
    dsimp only at hf
    subst hf
    rfl
  · rw [hsnd]; exact hmem
  · exact ⟨directory_photos_data rootName dirPath files, hcat, hmem⟩

/-- Witness for the failure-isolation theorem on `sampleDirFiles`: the good
JPEG sibling of the corrupt PNG still lands in photos.json. -/
theorem failure_isolated_to_image_witness :
    ((⟨⟨"a", ".jpg"⟩, .image "JPEG" ⟨"RGB", 2, 2, [0, 0, 0, 0]⟩⟩ : FsFile)
        ∈ imagesIn sampleDirFiles) ∧
    ∃ o, process_image "photos" ["A"]
        ⟨⟨"a", ".jpg"⟩, .image "JPEG" ⟨"RGB", 2, 2, [0, 0, 0, 0]⟩⟩
        = some o ∧
      ((∀ f : FsFile, f.content = .corrupt
          → process_image "photos" ["A"] f = none) ∧
        o.entry ∈ (process_directory "photos" ["A"] sampleDirFiles).2 ∧
        ∃ l, lookupFile (process_directory "photos" ["A"] sampleDirFiles).1
            photosJsonName = some (.catalog l) ∧ o.entry ∈ l) :=
  ⟨by decide, _, rfl,
    failure_isolated_to_image "photos" ["A"] sampleDirFiles
      ⟨⟨"a", ".jpg"⟩, .image "JPEG" ⟨"RGB", 2, 2, [0, 0, 0, 0]⟩⟩ _
      (by decide) rfl⟩

theorem mapM_readCatalog_map_catalog (ls : List (List PhotoEntry)) :
    (ls.map FileContent.catalog).mapM readCatalog = some ls := by
  rw [← List.mapM'_eq_mapM]
  induction ls with
  | nil => rfl
  | cons a l ih => simp [List.mapM', readCatalog, ih]

/-- C1: the aggregate written to allPhotos.json is exactly the concatenation
of the photos arrays of every photos.json file found under the root, so its
entry count equals the sum of the directory catalogs' entry counts — no
entry lost, none duplicated. -/
theorem allPhotos_exact_concatenation (fs : Fs)
    (ls : List (List PhotoEntry))
    (hfound : found_photos_files fs = ls.map FileContent.catalog)
    (hne : ls.flatten ≠ []) :
    lookupFile (aggregate_all_photos fs).rootFiles allPhotosJsonName
        = some (.catalog ls.flatten) ∧
    ls.flatten.length = (ls.map List.length).sum := by
  constructor
  · unfold aggregate_all_photos
    rw [hfound, mapM_readCatalog_map_catalog]
    have h1 : ls.flatten.isEmpty = false := by
      cases hf : ls.flatten with
      | nil => exact absurd hf hne
      | cons a l => rfl
    simp only [h1, Bool.false_eq_true, if_false]
    exact lookupFile_upsertFile_self _ _ _
  · exact List.length_flatten ls

/-- A photo entry used in concrete snapshots. -/
def sampleEntryRoot : PhotoEntry :=
  ⟨"r", ⟨"", [""], [""]⟩, ⟨"r.jpg", "r-min.jpg"⟩, ⟨"photos", false⟩⟩

/-- Another photo entry used in concrete snapshots. -/
def sampleEntryA : PhotoEntry :=
  ⟨"a", ⟨"", [""], [""]⟩, ⟨"A/a.jpg", "A/a-min.jpg"⟩, ⟨"A", false⟩⟩

/-- A snapshot whose root and subdirectory A each hold a one-entry
photos.json. -/
def sampleCatalogFs : Fs :=
  ⟨"photos", [⟨photosJsonName, .catalog [sampleEntryRoot]⟩],
   [⟨["A"], [⟨photosJsonName, .catalog [sampleEntryA]⟩]⟩]⟩

/-- Witness for the exact-concatenation theorem on `sampleCatalogFs`. -/
theorem allPhotos_exact_concatenation_witness :
    (found_photos_files sampleCatalogFs
        = [[sampleEntryRoot], [sampleEntryA]].map FileContent.catalog ∧
      ([[sampleEntryRoot], [sampleEntryA]]
        : List (List PhotoEntry)).flatten ≠ []) ∧
    (lookupFile (aggregate_all_photos sampleCatalogFs).rootFiles
        allPhotosJsonName
        = some (.catalog ([[sampleEntryRoot], [sampleEntryA]]
            : List (List PhotoEntry)).flatten) ∧
      ([[sampleEntryRoot], [sampleEntryA]]
          : List (List PhotoEntry)).flatten.length
        = ([[sampleEntryRoot], [sampleEntryA]].map List.length).sum) :=
  ⟨⟨by decide, by decide⟩,
    allPhotos_exact_concatenation sampleCatalogFs _ (by decide) (by decide)⟩

/-- No file named `n` exists anywhere in the snapshot. -/
def noFileNamed (fs : Fs) (n : FileName) : Prop :=
  lookupFile fs.rootFiles n = none ∧
    ∀ d ∈ fs.subs, lookupFile d.files n = none

instance (fs : Fs) (n : FileName) : Decidable (noFileNamed fs n) := by
  unfold noFileNamed; infer_instance

/-- A successful `process_image` writes exactly the processed file's own name
and its `-min` sibling. -/
theorem process_image_names (rootName : String) (dirPath : List String)
    (f : FsFile) (o : ImageOutcome)
    (h : process_image rootName dirPath f = some o) :
    o.orig = f.name ∧ o.min_name = ⟨f.name.stem ++ "-min", f.name.suffix⟩ := by
  rcases f with ⟨name, content⟩
  cases content with
  | image fmt im =>
    injection h with h2
    subst h2
    refine ⟨rfl, ?_⟩
    show (create_minified_image _ _ _ _ false).path = _
    rw [create_minified_image_path]
  | corrupt => exact Option.noConfusion h
  | catalog l => exact Option.noConfusion h
  | other => exact Option.noConfusion h

theorem lookupFile_foldl_applyOutcome_none (rs : List (Option ImageOutcome))
    (files : List FsFile) (n : FileName)
    (hn : ∀ o, some o ∈ rs → n ≠ o.orig ∧ n ≠ o.min_name)
    (h : lookupFile files n = none) :
    lookupFile (rs.foldl (fun acc r => match r with
      | some o => applyOutcome acc o
      | none => acc) files) n = none := by
  induction rs generalizing files with
  | nil => exact h
  | cons r rest ih =>
    cases r with
    | none =>
      exact ih _ (fun o ho => hn o (List.mem_cons_of_mem _ ho)) h
    | some o =>
      refine ih _ (fun o' ho' => hn o' (List.mem_cons_of_mem _ ho')) ?_
      obtain ⟨h1, h2⟩ := hn o (List.mem_cons_self _ _)
      unfold applyOutcome
      rw [lookupFile_upsertFile_other _ _ _ _ h2,
        lookupFile_upsertFile_other _ _ _ _ h1]
      exact h

/-- Processing a directory never creates a file whose name is not
`photos.json` and whose extension is not a supported image extension. -/
theorem process_directory_preserves_absent (rootName : String)
    (dirPath : List String) (files : List FsFile) (n : FileName)
    (himg : is_image_file n = false) (hpj : n ≠ photosJsonName)
    (h : lookupFile files n = none) :
    lookupFile (process_directory rootName dirPath files).1 n = none := by
  have hw : lookupFile (directory_written_files rootName dirPath files) n
      = none := by
    unfold directory_written_files
    refine lookupFile_foldl_applyOutcome_none _ _ _ ?_ h
    intro o ho
    obtain ⟨f, hf, hfo⟩ := List.mem_map.mp ho
    obtain ⟨ho1, ho2⟩ := process_image_names rootName dirPath f o hfo
    have hfimg : is_image_file f.name = true :=
      (List.mem_filter.mp hf).2
    have hmin : is_image_file (⟨f.name.stem ++ "-min", f.name.suffix⟩
        : FileName) = true := hfimg
    constructor
    · rw [ho1]
      intro he
      rw [he, hfimg] at himg
      exact Bool.noConfusion himg
    · rw [ho2]
      intro he
      rw [he, hmin] at himg
      exact Bool.noConfusion himg
  simp only [process_directory]
  split
  · exact h
  · split
    · exact hw
    · show lookupFile (upsertFile _ photosJsonName _) n = none
      rw [lookupFile_upsertFile_other _ _ _ _ hpj]
      exact hw

theorem processDirStep_preserves_noFileNamed (rootName : String) (fs : Fs)
    (p : List String) (n : FileName)
    (himg : is_image_file n = false) (hpj : n ≠ photosJsonName)
    (h : noFileNamed fs n) :
    noFileNamed (processDirStep rootName fs p) n := by
  unfold processDirStep
  cases hg : getFiles fs p with
  | none => exact h
  | some files =>
    have hfl : lookupFile files n = none := by
      cases p with
      | nil =>
        have : files = fs.rootFiles := by
          injection hg with hg2
          exact hg2.symm
        rw [this]
        exact h.1
      | cons a q =>
        unfold getFiles at hg
        obtain ⟨d1, hd1, hd1f⟩ := Option.map_eq_some'.mp hg
        have hmem := List.mem_of_find?_eq_some hd1
        rw [← hd1f]
        exact h.2 d1 hmem
    have hw := process_directory_preserves_absent rootName p files n
      himg hpj hfl
    unfold setFiles
    cases p with
    | nil => exact ⟨hw, h.2⟩
    | cons a q =>
      refine ⟨h.1, ?_⟩
      intro d hd
      obtain ⟨d0, hd0, hd0e⟩ := List.mem_map.mp hd
      by_cases hc : d0.path = a :: q
      · rw [← hd0e, if_pos hc]
        exact hw
      · rw [← hd0e, if_neg hc]
        exact h.2 d0 hd0

theorem foldl_processDirStep_preserves_noFileNamed (rootName : String)
    (ps : List (List String)) (fs : Fs) (n : FileName)
    (himg : is_image_file n = false) (hpj : n ≠ photosJsonName)
    (h : noFileNamed fs n) :
    noFileNamed (ps.foldl (processDirStep rootName) fs) n := by
  induction ps generalizing fs with
  | nil => exact h
  | cons p rest ih =>
    exact ih _ (processDirStep_preserves_noFileNamed rootName fs p n
      himg hpj h)

theorem aggregate_preserves_noFileNamed (fs : Fs) (n : FileName)
    (hap : n ≠ allPhotosJsonName) (h : noFileNamed fs n) :
    noFileNamed (aggregate_all_photos fs) n := by
  unfold aggregate_all_photos
  cases hm : (found_photos_files fs).mapM readCatalog with
  | none => exact h
  | some ls =>
    by_cases he : ls.flatten.isEmpty = true
    · simp only [he, if_true]
      exact h
    · simp only [he, if_false]
      refine ⟨?_, h.2⟩
      show lookupFile (upsertFile fs.rootFiles allPhotosJsonName _) n = none
      rw [lookupFile_upsertFile_other _ _ _ _ hap]
      exact h.1

/-- A run never creates a file whose name is none of `photos.json`,
`allPhotos.json`, or an image-extension name: if no such file exists under
the root before the run, none exists after it. -/
theorem process_folder_preserves_noFileNamed (rootName : String) (fs : Fs)
    (n : FileName) (himg : is_image_file n = false)
    (hpj : n ≠ photosJsonName) (hap : n ≠ allPhotosJsonName)
    (h : noFileNamed fs n) :
    noFileNamed (process_folder rootName fs) n := by
  unfold process_folder
  by_cases hd : (all_directories fs).isEmpty = true
  · simp only [hd, if_true]
    exact h
  · simp only [hd, if_false]
    exact aggregate_preserves_noFileNamed _ n hap
      (foldl_processDirStep_preserves_noFileNamed rootName _ fs n
        himg hpj h)

/-- A one-subdirectory snapshot holding a single valid JPEG, used by the
concrete run theorems. -/
def demoFs : Fs :=
  ⟨"photos", [],
   [⟨["A"], [⟨⟨"img1", ".jpg"⟩,
      .image "JPEG" ⟨"RGB", 4, 2, [0, 0, 0, 0, 0, 0, 0, 0]⟩⟩]⟩]⟩

/-- The snapshot after one run on `demoFs`. -/
def demoRun1 : Fs := process_folder "photos" demoFs

/-- The snapshot after a second run on the unchanged output of the first. -/
def demoRun2 : Fs := process_folder "photos" demoRun1

/-- C2 counterexample: a run that completed and wrote a nonempty
allPhotos.json still contains no master.json anywhere — the source never
creates one, so no run writes master.json, empty aggregates or not. -/
theorem no_master_json_after_run :
    (lookupFile demoRun1.rootFiles allPhotosJsonName).isSome = true ∧
    lookupFile demoRun1.rootFiles masterJsonName = none ∧
    ∀ d ∈ demoRun1.subs, lookupFile d.files masterJsonName = none := by
  decide

/-- C2 (amended): a run never writes master.json — if no master.json exists
under the root before the run, none exists after it; the only root-level
file the aggregation step writes is allPhotos.json. -/
theorem run_never_writes_master (rootName : String) (fs : Fs)
    (h : noFileNamed fs masterJsonName) :
    noFileNamed (process_folder rootName fs) masterJsonName :=
  process_folder_preserves_noFileNamed rootName fs masterJsonName
    (by decide) (by decide) (by decide) h

/-- Witness for the amended master.json theorem on `demoFs`. -/
theorem run_never_writes_master_witness :
    noFileNamed demoFs masterJsonName ∧
    noFileNamed (process_folder "photos" demoFs) masterJsonName :=
  ⟨by decide, run_never_writes_master "photos" demoFs (by decide)⟩

/-- The number of entries in the root's allPhotos.json (0 when absent). -/
def rootAllPhotosCount (fs : Fs) : Nat :=
  match lookupFile fs.rootFiles allPhotosJsonName with
  | some (.catalog l) => l.length
  | _ => 0

/-- The titles listed in the root's allPhotos.json. -/
def rootAllPhotosTitles (fs : Fs) : List String :=
  match lookupFile fs.rootFiles allPhotosJsonName with
  | some (.catalog l) => l.map PhotoEntry.title
  | _ => []

/-- C7: rerunning the pipeline on the unchanged output of a first run does
not reproduce allPhotos.json.  On `demoFs` the first run aggregates one
entry; the second run aggregates two, because the first run's
`img1-min.jpg` carries a supported image extension and is re-ingested as a
fresh photo. -/
theorem second_run_allPhotos_differs :
    rootAllPhotosCount demoRun1 = 1 ∧
    rootAllPhotosCount demoRun2 = 2 ∧
    rootAllPhotosTitles demoRun1 = ["img1"] ∧
    rootAllPhotosTitles demoRun2 = ["img1", "img1-min"] ∧
    lookupFile demoRun1.rootFiles allPhotosJsonName
      ≠ lookupFile demoRun2.rootFiles allPhotosJsonName := by
  decide

/-- A snapshot whose root directly contains an image and which also has one
subdirectory containing an image. -/
def rootImageFs : Fs :=
  ⟨"photos",
   [⟨⟨"rootpic", ".jpg"⟩,
      .image "JPEG" ⟨"RGB", 4, 2, [0, 0, 0, 0, 0, 0, 0, 0]⟩⟩],
   [⟨["A"], [⟨⟨"img1", ".jpg"⟩,
      .image "JPEG" ⟨"RGB", 4, 2, [0, 0, 0, 0, 0, 0, 0, 0]⟩⟩]⟩]⟩

/-- C8 counterexample: on `rootImageFs` the catalogs are created in the
order subdirectory-A-then-root, but aggregation reads them root-first, so
the aggregation traversal order is not the creation order, precisely in the
root-contains-images case the claim includes. -/
theorem aggregation_order_is_not_creation_order :
    creationOrder rootImageFs = [["A"], []] ∧
    aggregationOrder (run_directories "photos" rootImageFs) = [[], ["A"]] ∧
    creationOrder rootImageFs
      ≠ aggregationOrder (run_directories "photos" rootImageFs) ∧
    rootAllPhotosTitles (process_folder "photos" rootImageFs)
      = ["rootpic", "img1"] := by
  decide

theorem processDirStep_nil (rootName : String) (fs : Fs) :
    processDirStep rootName fs []
      = setFiles fs [] (process_directory rootName [] fs.rootFiles).1 := rfl

theorem setFiles_nil_rootFiles (fs : Fs) (files : List FsFile) :
    (setFiles fs [] files).rootFiles = files := rfl

theorem processDirStep_rootFiles_ne (rootName : String) (fs : Fs)
    (p : List String) (hp : p ≠ []) :
    (processDirStep rootName fs p).rootFiles = fs.rootFiles := by
  unfold processDirStep
  cases hg : getFiles fs p with
  | none => rfl
  | some files =>
    cases p with
    | nil => exact absurd rfl hp
    | cons a q => rfl

theorem foldl_processDirStep_rootFiles (rootName : String)
    (ps : List (List String)) (fs : Fs) (hps : ∀ p ∈ ps, p ≠ []) :
    (ps.foldl (processDirStep rootName) fs).rootFiles = fs.rootFiles := by
  induction ps generalizing fs with
  | nil => rfl
  | cons p rest ih =>
    rw [List.foldl_cons,
      ih _ (fun q hq => hps q (List.mem_cons_of_mem _ hq)),
      processDirStep_rootFiles_ne rootName fs p
        (hps p (List.mem_cons_self _ _))]

theorem mem_rglobStarDirs_ne_nil (fs : Fs)
    (h1 : ∀ d ∈ fs.subs, d.path ≠ []) :
    ∀ p ∈ rglobStarDirs fs, p ≠ [] := by
  intro p hp
  unfold rglobStarDirs at hp
  rw [List.mem_flatten] at hp
  obtain ⟨block, hb, hpb⟩ := hp
  rw [List.mem_map] at hb
  obtain ⟨pd, hpd, hbe⟩ := hb
  rw [← hbe, List.mem_map] at hpb
  obtain ⟨d, hd, hde⟩ := hpb
  rw [← hde]
  exact h1 d (List.mem_of_mem_filter hd)

/-- Because the root is appended last to `all_directories`, the root's files
after the directory-processing phase are exactly the result of processing
the root's original files. -/
theorem run_directories_rootFiles (rootName : String) (fs : Fs)
    (h1 : ∀ d ∈ fs.subs, d.path ≠ [])
    (hane : (fs.rootFiles.any fun f => is_image_file f.name) = true) :
    (run_directories rootName fs).rootFiles
      = (process_directory rootName [] fs.rootFiles).1 := by
  unfold run_directories all_directories
  simp only [hane, if_true, List.foldl_append, List.foldl_cons,
    List.foldl_nil, processDirStep_nil, setFiles_nil_rootFiles]
  rw [foldl_processDirStep_rootFiles rootName _ fs
    (mem_rglobStarDirs_ne_nil fs h1)]

/-- C8 (amended): aggregation reads catalogs in recursive-glob preorder,
which begins at the root, while processing appends the root last; so
whenever the root directly contains a successfully-processed image and the
tree has at least one subdirectory, the root's catalog is created last but
read first, and the aggregation traversal order differs from the catalog
creation order. -/
theorem aggregation_reads_root_first (rootName : String) (fs : Fs)
    (h1 : ∀ d ∈ fs.subs, d.path ≠ [])
    (h3 : ∃ d ∈ fs.subs, d.path.length = 1)
    (g : FsFile) (o : ImageOutcome) (hg : g ∈ imagesIn fs.rootFiles)
    (ho : process_image rootName [] g = some o) :
    (creationOrder fs).getLast? = some [] ∧
    (aggregationOrder (run_directories rootName fs)).head? = some [] ∧
    creationOrder fs ≠ aggregationOrder (run_directories rootName fs) := by
  have hane : (fs.rootFiles.any fun f => is_image_file f.name) = true := by
    rw [List.any_eq_true]
    exact ⟨g, List.mem_of_mem_filter hg, (List.mem_filter.mp hg).2⟩
  have hcreate : creationOrder fs = rglobStarDirs fs ++ [[]] := by
    unfold creationOrder all_directories
    rw [hane]
    exact rfl
  have hlast : (creationOrder fs).getLast? = some [] := by
    rw [hcreate]
    exact List.getLast?_concat _
  have hroot := run_directories_rootFiles rootName fs h1 hane
  obtain ⟨-, hcat⟩ :=
    process_directory_of_success rootName [] fs.rootFiles g o hg ho
  have hsome : (lookupFile (run_directories rootName fs).rootFiles
      photosJsonName).isSome = true := by
    rw [hroot, hcat]
    rfl
  have hagg : (aggregationOrder (run_directories rootName fs)).head?
      = some [] := by
    unfold aggregationOrder allDirsInOrder
    rw [List.filterMap_cons]
    simp only [hsome, if_true]
    rfl
  refine ⟨hlast, hagg, ?_⟩
  obtain ⟨d1, hd1, hlen⟩ := h3
  have hdrop : d1.path.dropLast = [] := by
    cases hp : d1.path with
    | nil => rfl
    | cons x xs =>
      cases xs with
      | nil => rfl
      | cons y ys => rw [hp] at hlen; simp at hlen
  have hchild : d1 ∈ dirChildren fs [] := by
    unfold dirChildren
    rw [List.mem_filter]
    refine ⟨hd1, ?_⟩
    simp [hlen, hdrop]
  have hblockmem : d1.path ∈ (dirChildren fs []).map Dir.path :=
    List.mem_map_of_mem _ hchild
  cases hb : (dirChildren fs []).map Dir.path with
  | nil =>
    rw [hb] at hblockmem
    exact absurd hblockmem (List.not_mem_nil _)
  | cons x bs =>
    have hx : x ≠ [] := by
      have hxmem : x ∈ (dirChildren fs []).map Dir.path := by
        rw [hb]
        exact List.mem_cons_self _ _
      obtain ⟨d0, hd0, hd0e⟩ := List.mem_map.mp hxmem
      rw [← hd0e]
      exact h1 d0 (List.mem_of_mem_filter hd0)
    have hhead : (creationOrder fs).head? = some x := by
      rw [hcreate]
      unfold rglobStarDirs allDirsInOrder
      simp only [List.map_cons, List.flatten_cons]
      rw [hb]
      rfl
    intro heq
    rw [heq, hagg] at hhead
    injection hhead with hxe
    exact hx hxe.symm

/-- Witness for the aggregation-order theorem on `rootImageFs`. -/
theorem aggregation_reads_root_first_witness :
    ((∀ d ∈ rootImageFs.subs, d.path ≠ []) ∧
      (∃ d ∈ rootImageFs.subs, d.path.length = 1) ∧
      (⟨⟨"rootpic", ".jpg"⟩,
          .image "JPEG" ⟨"RGB", 4, 2, [0, 0, 0, 0, 0, 0, 0, 0]⟩⟩ : FsFile)
        ∈ imagesIn rootImageFs.rootFiles) ∧
    ((creationOrder rootImageFs).getLast? = some [] ∧
      (aggregationOrder (run_directories "photos" rootImageFs)).head?
        = some [] ∧
      creationOrder rootImageFs
        ≠ aggregationOrder (run_directories "photos" rootImageFs)) :=
  ⟨⟨by decide, by decide, by decide⟩,
    aggregation_reads_root_first "photos" rootImageFs (by decide) (by decide)
      ⟨⟨"rootpic", ".jpg"⟩,
        .image "JPEG" ⟨"RGB", 4, 2, [0, 0, 0, 0, 0, 0, 0, 0]⟩⟩ _
      (by decide) rfl⟩

theorem find?_path_map_setFiles (subs : List Dir) (p q : List String)
    (fl : List FsFile) (hne : q ≠ p) :
    ((subs.map (fun d => if d.path = p then { d with files := fl } else d)).find?
        (fun d => d.path = q))
      = subs.find? (fun d => d.path = q) := by
  induction subs with
  | nil => rfl
  | cons d ds ih =>
    simp only [List.map_cons, List.find?_cons]
    by_cases hd : d.path = p
    · have hq : ¬ d.path = q := fun h => hne (h ▸ hd ▸ rfl)
      rw [if_pos hd]
      have h1 : (decide (({ d with files := fl } : Dir).path = q)) = false :=
        decide_eq_false hq
      rw [h1]
      exact ih
    · rw [if_neg hd]
      by_cases hq : d.path = q
      · rw [decide_eq_true hq]
      · rw [decide_eq_false hq]
        exact ih

theorem find?_path_map_setFiles_self (subs : List Dir) (p : List String)
    (fl : List FsFile)
    (h : (subs.find? (fun d => d.path = p)).isSome = true) :
    ((subs.map (fun d => if d.path = p then { d with files := fl } else d)).find?
        (fun d => d.path = p))
      = some ⟨p, fl⟩ := by
  induction subs with
  | nil => exact absurd h (by simp [List.find?])
  | cons d ds ih =>
    simp only [List.map_cons, List.find?_cons]
    by_cases hd : d.path = p
    · rw [if_pos hd]
      have h1 : (decide (({ d with files := fl } : Dir).path = p)) = true :=
        decide_eq_true hd
      rw [h1]
      show some ({ d with files := fl } : Dir) = some (⟨p, fl⟩ : Dir)
      rw [hd]
    · rw [if_neg hd]
      have h2 : (decide (d.path = p)) = false := decide_eq_false hd
      rw [h2]
      refine ih ?_
      rw [List.find?_cons, h2] at h
      exact h

theorem getFiles_setFiles_ne (fs : Fs) (p q : List String)
    (fl : List FsFile) (hne : q ≠ p) :
    getFiles (setFiles fs p fl) q = getFiles fs q := by
  cases p with
  | nil =>
    cases q with
    | nil => exact absurd rfl hne
    | cons b s => rfl
  | cons a t =>
    cases q with
    | nil => rfl
    | cons b s =>
      show ((fs.subs.map _).find? _).map Dir.files = _
      rw [find?_path_map_setFiles fs.subs (a :: t) (b :: s) fl hne]
      rfl

theorem getFiles_setFiles_self (fs : Fs) (p : List String)
    (fl : List FsFile) (h : (getFiles fs p).isSome = true) :
    getFiles (setFiles fs p fl) p = some fl := by
  cases p with
  | nil => rfl
  | cons a t =>
    cases hfind : fs.subs.find? (fun d => d.path = a :: t) with
    | none =>
      exfalso
      have h0 : getFiles fs (a :: t) = none := by
        show (fs.subs.find? (fun d => d.path = a :: t)).map Dir.files = none
        rw [hfind]
        rfl
      rw [h0] at h
      exact Bool.noConfusion h
    | some d2 =>
      show ((fs.subs.map _).find? _).map Dir.files = some fl
      rw [find?_path_map_setFiles_self fs.subs (a :: t) fl
        (by rw [hfind]; rfl)]
      rfl

theorem getFiles_processDirStep_ne (rootName : String) (fs : Fs)
    (p q : List String) (hne : q ≠ p) :
    getFiles (processDirStep rootName fs p) q = getFiles fs q := by
  unfold processDirStep
  cases hg : getFiles fs p with
  | none => rfl
  | some files => exact getFiles_setFiles_ne fs p q _ hne

theorem getFiles_processDirStep_self (rootName : String) (fs : Fs)
    (p : List String) (files : List FsFile)
    (h : getFiles fs p = some files) :
    getFiles (processDirStep rootName fs p) p
      = some (process_directory rootName p files).1 := by
  unfold processDirStep
  rw [h]
  exact getFiles_setFiles_self fs p _ (by rw [h]; rfl)

theorem getFiles_foldl_not_mem (rootName : String)
    (ps : List (List String)) (fs : Fs) (q : List String) (hq : q ∉ ps) :
    getFiles (ps.foldl (processDirStep rootName) fs) q = getFiles fs q := by
  induction ps generalizing fs with
  | nil => rfl
  | cons p rest ih =>
    rw [List.foldl_cons,
      ih _ (fun hmem => hq (List.mem_cons_of_mem _ hmem)),
      getFiles_processDirStep_ne rootName fs p q
        (fun he => hq (he ▸ List.mem_cons_self _ _))]

theorem getFiles_foldl_split (rootName : String)
    (l1 l2 : List (List String)) (q : List String) (fs : Fs)
    (files : List FsFile) (h1 : q ∉ l1) (h2 : q ∉ l2)
    (hq : getFiles fs q = some files) :
    getFiles ((l1 ++ q :: l2).foldl (processDirStep rootName) fs) q
      = some (process_directory rootName q files).1 := by
  rw [List.foldl_append, List.foldl_cons,
    getFiles_foldl_not_mem rootName l2 _ q h2]
  refine getFiles_processDirStep_self rootName _ q files ?_
  rw [getFiles_foldl_not_mem rootName l1 fs q h1]
  exact hq

theorem block_nodup (fs : Fs) (hnd : (fs.subs.map Dir.path).Nodup)
    (p : List String) : ((dirChildren fs p).map Dir.path).Nodup :=
  hnd.sublist (List.Sublist.map Dir.path (List.filter_sublist fs.subs))

theorem mem_block_dropLast (fs : Fs) (p q : List String)
    (h : q ∈ (dirChildren fs p).map Dir.path) :
    q.dropLast = p ∧ q.length = p.length + 1 := by
  obtain ⟨d, hd, hde⟩ := List.mem_map.mp h
  have hcond := (List.mem_filter.mp hd).2
  rw [decide_eq_true_eq] at hcond
  exact ⟨hde ▸ hcond.2, hde ▸ hcond.1⟩

theorem allDirsInOrder_fst_nodup (fs : Fs) (hWF : fs.WF) :
    ((allDirsInOrder fs).map Prod.fst).Nodup := by
  obtain ⟨hne, hnd, -⟩ := hWF
  unfold allDirsInOrder
  rw [List.map_cons, List.map_map]
  rw [List.nodup_cons]
  constructor
  · intro hmem
    obtain ⟨d, hd, hde⟩ := List.mem_map.mp hmem
    exact hne d hd hde
  · exact hnd

theorem rglobStarDirs_nodup (fs : Fs) (hWF : fs.WF) :
    (rglobStarDirs fs).Nodup := by
  have hnd := hWF.2.1
  unfold rglobStarDirs
  rw [List.nodup_flatten]
  constructor
  · intro block hb
    obtain ⟨pd, hpd, hbe⟩ := List.mem_map.mp hb
    rw [← hbe]
    exact block_nodup fs hnd pd.1
  · rw [List.pairwise_map]
    have hfst := allDirsInOrder_fst_nodup fs hWF
    rw [List.Nodup, List.pairwise_map] at hfst
    refine hfst.imp ?_
    intro a b hab x hxa hxb
    have ha := (mem_block_dropLast fs a.1 x hxa).1
    have hb2 := (mem_block_dropLast fs b.1 x hxb).1
    exact hab (ha ▸ hb2 ▸ rfl)

theorem all_directories_nodup (fs : Fs) (hWF : fs.WF) :
    (all_directories fs).Nodup := by
  unfold all_directories
  by_cases hi : (fs.rootFiles.any fun f => is_image_file f.name) = true
  · rw [hi]
    rw [List.nodup_append]
    refine ⟨rglobStarDirs_nodup fs hWF, ?_, ?_⟩
    · exact List.nodup_singleton _
    · intro x hx hx2
      have hxe : x = [] := by
        cases hx2 with
        | head => rfl
        | tail _ h => exact absurd h (List.not_mem_nil x)
      exact mem_rglobStarDirs_ne_nil fs hWF.1 x hx hxe
  · rw [Bool.not_eq_true] at hi
    rw [hi]
    show (rglobStarDirs fs ++ []).Nodup
    rw [List.append_nil]
    exact rglobStarDirs_nodup fs hWF

theorem mem_all_directories_sub (fs : Fs) (hWF : fs.WF) (d : Dir)
    (hd : d ∈ fs.subs) : d.path ∈ all_directories fs := by
  obtain ⟨hne, hnd, hclosed⟩ := hWF
  have hq : d.path ∈ (dirChildren fs d.path.dropLast).map Dir.path := by
    refine List.mem_map_of_mem _ ?_
    unfold dirChildren
    rw [List.mem_filter]
    refine ⟨hd, ?_⟩
    rw [decide_eq_true_eq]
    have hnil : d.path ≠ [] := hne d hd
    refine ⟨?_, rfl⟩
    rw [List.length_dropLast]
    have : d.path.length ≠ 0 := fun h => hnil (List.length_eq_zero.mp h)
    omega
  have hparent : ∃ pd ∈ allDirsInOrder fs, pd.1 = d.path.dropLast := by
    cases hclosed d hd with
    | inl h => exact ⟨([], fs.rootFiles), List.mem_cons_self _ _, h.symm⟩
    | inr h =>
      obtain ⟨d2, hd2, hd2e⟩ := List.mem_map.mp h
      refine ⟨(d2.path, d2.files), ?_, hd2e⟩
      exact List.mem_cons_of_mem _ (List.mem_map_of_mem _ hd2)
  obtain ⟨pd, hpd, hpde⟩ := hparent
  refine List.mem_append_left _ ?_
  unfold rglobStarDirs
  rw [List.mem_flatten]
  refine ⟨(dirChildren fs pd.1).map Dir.path, List.mem_map_of_mem _ hpd, ?_⟩
  rw [hpde]
  exact hq

theorem mem_all_directories_root (fs : Fs)
    (hane : (fs.rootFiles.any fun f => is_image_file f.name) = true) :
    [] ∈ all_directories fs := by
  unfold all_directories
  rw [hane]
  exact List.mem_append_right _ (List.mem_singleton.mpr rfl)

theorem reduceOption_eq_nil_all_none {α : Type} (l : List (Option α))
    (h : ∀ r ∈ l, r = none) : l.reduceOption = [] := by
  induction l with
  | nil => rfl
  | cons r rest ih =>
    have hr := h r (List.mem_cons_self _ _)
    subst hr
    rw [List.reduceOption_cons_of_none]
    exact ih (fun r hr => h r (List.mem_cons_of_mem _ hr))

/-- `process_directory` on a listing with no pre-existing photos.json and at
least one image leaves a photos.json exactly when some image succeeded. -/
theorem process_directory_photosJson_iff (rootName : String)
    (dirPath : List String) (files : List FsFile)
    (hfresh : lookupFile files photosJsonName = none)
    (himg : imagesIn files ≠ []) :
    (lookupFile (process_directory rootName dirPath files).1
        photosJsonName).isSome = true
      ↔ ∃ f ∈ imagesIn files, (process_image rootName dirPath f).isSome
          = true := by
  constructor
  · intro h
    by_contra hno
    push_neg at hno
    have hallnone : ∀ r ∈ pool_map_results rootName dirPath files,
        r = none := by
      intro r hr
      obtain ⟨f, hf, hfr⟩ := List.mem_map.mp hr
      cases hrc : r with
      | none => rfl
      | some o =>
        exfalso
        have := hno f hf
        rw [hfr, hrc] at this
        exact this rfl
    have hdata : directory_photos_data rootName dirPath files = [] := by
      unfold directory_photos_data
      rw [reduceOption_eq_nil_all_none _ hallnone]
      rfl
    have hwr : lookupFile (directory_written_files rootName dirPath files)
        photosJsonName = none := by
      unfold directory_written_files
      refine lookupFile_foldl_applyOutcome_none _ _ _ ?_ hfresh
      intro o ho
      exact absurd (hallnone _ ho) (by simp)
    have hres : lookupFile (process_directory rootName dirPath files).1
        photosJsonName = none := by
      unfold process_directory
      have h1 : (imagesIn files).isEmpty = false := by
        cases hi : imagesIn files with
        | nil => exact absurd hi himg
        | cons a l => rfl
      have h2 : (directory_photos_data rootName dirPath files).isEmpty
          = true := by rw [hdata]; rfl
      simp only [h1, h2, Bool.false_eq_true, if_false, if_true]
      exact hwr
    rw [hres] at h
    exact Bool.noConfusion h
  · rintro ⟨f, hf, hs⟩
    obtain ⟨o, ho⟩ := Option.isSome_iff_exists.mp hs
    rw [(process_directory_of_success rootName dirPath files f o hf ho).2]
    rfl

/-- Aggregation only writes allPhotos.json at the root, so the presence of
photos.json in any directory is untouched by it. -/
theorem aggregate_photosJson_lookup (fs : Fs) (p : List String)
    (files : List FsFile) (h : getFiles fs p = some files) :
    ∃ files2, getFiles (aggregate_all_photos fs) p = some files2 ∧
      lookupFile files2 photosJsonName = lookupFile files photosJsonName := by
  unfold aggregate_all_photos
  cases (found_photos_files fs).mapM readCatalog with
  | none => exact ⟨files, h, rfl⟩
  | some ls =>
    by_cases he : ls.flatten.isEmpty = true
    · simp only [he, if_true]
      exact ⟨files, h, rfl⟩
    · rw [Bool.not_eq_true] at he
      simp only [he, Bool.false_eq_true, if_false]
      cases p with
      | nil =>
        have hf : files = fs.rootFiles := by
          injection h with h2
          exact h2.symm
        refine ⟨_, rfl, ?_⟩
        rw [hf]
        exact lookupFile_upsertFile_other _ _ _ _ (by decide)
      | cons a t => exact ⟨files, h, rfl⟩

/-- C6: on a tree containing no photos.json, for every directory with at
least one supported image, after a run photos.json exists in that directory
if and only if at least one of its images processed successfully; a catalog
with zero successes is never written. -/
theorem photosJson_iff_some_success (rootName : String) (fs : Fs)
    (hWF : fs.WF) (hfresh : noFileNamed fs photosJsonName)
    (p : List String) (files : List FsFile)
    (hp : getFiles fs p = some files) (himg : imagesIn files ≠ []) :
    ∃ files2, getFiles (process_folder rootName fs) p = some files2 ∧
      ((lookupFile files2 photosJsonName).isSome = true
        ↔ ∃ f ∈ imagesIn files,
            (process_image rootName p f).isSome = true) := by
  have hmem : p ∈ all_directories fs := by
    cases hpc : p with
    | nil =>
      have hf : files = fs.rootFiles := by
        rw [hpc] at hp
        injection hp with h2
        exact h2.symm
      refine mem_all_directories_root fs ?_
      rw [List.any_eq_true]
      cases hi : imagesIn files with
      | nil => exact absurd hi himg
      | cons g gs =>
        have hg : g ∈ imagesIn files := by
          rw [hi]
          exact List.mem_cons_self _ _
        refine ⟨g, ?_, (List.mem_filter.mp hg).2⟩
        rw [← hf]
        exact List.mem_of_mem_filter hg
    | cons a t =>
      rw [hpc] at hp
      cases hfind : fs.subs.find? (fun d => d.path = a :: t) with
      | none =>
        exfalso
        have h0 : getFiles fs (a :: t) = none := by
          show (fs.subs.find? (fun d => d.path = a :: t)).map Dir.files
            = none
          rw [hfind]
          rfl
        rw [h0] at hp
        exact Option.noConfusion hp
      | some d =>
        have hdp : d.path = a :: t := by
          have := List.find?_some hfind
          rwa [decide_eq_true_eq] at this
        rw [← hdp]
        exact mem_all_directories_sub fs hWF d
          (List.mem_of_find?_eq_some hfind)
  have hnd := all_directories_nodup fs hWF
  obtain ⟨l1, l2, hsplit⟩ := List.append_of_mem hmem
  have h12 : p ∉ l1 ∧ p ∉ l2 := by
    rw [hsplit, List.nodup_append, List.nodup_cons] at hnd
    exact ⟨fun hmem1 => hnd.2.2 hmem1 (List.mem_cons_self _ _),
      hnd.2.1.1⟩
  have hne : (all_directories fs).isEmpty = false := by
    rw [hsplit]
    cases l1 with
    | nil => rfl
    | cons x xs => rfl
  have hphase : getFiles
      ((all_directories fs).foldl (processDirStep rootName) fs) p
      = some (process_directory rootName p files).1 := by
    rw [hsplit]
    exact getFiles_foldl_split rootName l1 l2 p fs files h12.1 h12.2 hp
  unfold process_folder
  simp only [hne, Bool.false_eq_true, if_false]
  obtain ⟨files2, hf2, hl2⟩ := aggregate_photosJson_lookup _ p _ hphase
  refine ⟨files2, hf2, ?_⟩
  rw [hl2]
  have hfreshp : lookupFile files photosJsonName = none := by
    cases hpc : p with
    | nil =>
      rw [hpc] at hp
      have hf : files = fs.rootFiles := by
        injection hp with h2
        exact h2.symm
      rw [hf]
      exact hfresh.1
    | cons a t =>
      rw [hpc] at hp
      cases hfind : fs.subs.find? (fun d => d.path = a :: t) with
      | none =>
        exfalso
        have h0 : getFiles fs (a :: t) = none := by
          show (fs.subs.find? (fun d => d.path = a :: t)).map Dir.files
            = none
          rw [hfind]
          rfl
        rw [h0] at hp
        exact Option.noConfusion hp
      | some d =>
        have hdf : d.files = files := by
          have h0 : getFiles fs (a :: t)
              = some d.files := by
            show (fs.subs.find? (fun d => d.path = a :: t)).map Dir.files
              = some d.files
            rw [hfind]
            rfl
          rw [h0] at hp
          injection hp
        rw [← hdf]
        exact hfresh.2 d (List.mem_of_find?_eq_some hfind)
  exact process_directory_photosJson_iff rootName p files hfreshp himg

/-- Witness for the photos.json-iff-success theorem on `demoFs`. -/
theorem photosJson_iff_some_success_witness :
    (demoFs.WF ∧ noFileNamed demoFs photosJsonName ∧
      getFiles demoFs ["A"]
        = some [⟨⟨"img1", ".jpg"⟩,
            .image "JPEG" ⟨"RGB", 4, 2, [0, 0, 0, 0, 0, 0, 0, 0]⟩⟩] ∧
      imagesIn [⟨⟨"img1", ".jpg"⟩,
          .image "JPEG" ⟨"RGB", 4, 2, [0, 0, 0, 0, 0, 0, 0, 0]⟩⟩] ≠ []) ∧
    (∃ files2,
      getFiles (process_folder "photos" demoFs) ["A"] = some files2 ∧
      ((lookupFile files2 photosJsonName).isSome = true
        ↔ ∃ f ∈ imagesIn [⟨⟨"img1", ".jpg"⟩,
              .image "JPEG" ⟨"RGB", 4, 2, [0, 0, 0, 0, 0, 0, 0, 0]⟩⟩],
            (process_image "photos" ["A"] f).isSome = true)) :=
  ⟨⟨by decide, by decide, by decide, by decide⟩,
    photosJson_iff_some_success "photos" demoFs (by decide) (by decide)
      ["A"]
      [⟨⟨"img1", ".jpg"⟩,
        .image "JPEG" ⟨"RGB", 4, 2, [0, 0, 0, 0, 0, 0, 0, 0]⟩⟩]
      (by decide) (by decide)⟩
